import Mathlib

/-!
Shallow embedding of the LLM council backend (src/backend/langchain_models.py
and src/backend/config.py), together with spec-modelled definitions for the
ranking parser and rank aggregator, and theorems settling the claims about
this program.
-/

/-- A model configuration: the Python dicts with "provider" and "model" keys.
`query_models_parallel` reads both keys by subscript, so a configuration is
embedded as a structure with both fields present; `.get` on a present key is
then the plain field. -/
structure ModelConfig where
  provider : String
  model : String
deriving DecidableEq, Repr

/-- A chat message dict whose optional "role" and "content" keys are read with
`.get` (absent keys yield `None`). -/
structure Message where
  role : Option String
  content : Option String
deriving DecidableEq, Repr

/-- Langchain message objects produced by `_convert_messages_to_langchain`. -/
inductive LCMessage where
  | SystemMessage (content : Option String)
  | HumanMessage (content : Option String)
  | AIMessage (content : Option String)
deriving DecidableEq, Repr

/-- Langchain chat-model instances returned by `_get_model_instance`.  The api
keys read from the environment do not influence control flow and are omitted. -/
inductive ModelInstance where
  | ChatAnthropic (model : String)
  | ChatOpenAI (model : String)
deriving DecidableEq, Repr

/-- Python exceptions relevant to the embedded code: the `ValueError` raised by
`_get_model_instance`, and any exception raised by the remote `ainvoke` call
(transport errors and provider-SDK timeouts included). -/
inductive PyError where
  | valueError (msg : String)
  | invokeError (msg : String)
deriving DecidableEq, Repr

/-- Outcome of one remote `model.ainvoke` call: the returned message content, or
a raised exception. -/
inductive CallOutcome where
  | success (content : String)
  | raise (msg : String)
deriving DecidableEq, Repr

/-- The environment of remote calls: what `model.ainvoke` does for each model
instance, converted message list and temperature.  Temperatures and timeouts
(Python floats, only passed around, never computed with) are embedded as
rationals. -/
abbrev World : Type := ModelInstance → List LCMessage → ℚ → CallOutcome

/-- The response dict built by `query_model`: the content together with the
always-`None` reasoning_details field. -/
structure Response where
  content : String
  reasoning_details : Option String
deriving DecidableEq, Repr

/-- Embedding of `_get_model_instance` (langchain_models.py lines 14-37):
dispatch on the provider tag.  The google branch is commented out in the
source, so every tag other than "anthropic" and "openai" raises `ValueError`. -/
def _get_model_instance (model_config : ModelConfig) : Except PyError ModelInstance :=
  if model_config.provider = "anthropic" then
    Except.ok (ModelInstance.ChatAnthropic model_config.model)
  else if model_config.provider = "openai" then
    Except.ok (ModelInstance.ChatOpenAI model_config.model)
  else
    Except.error (PyError.valueError ("Unsupported provider: " ++ model_config.provider))

/-- Embedding of `_convert_messages_to_langchain` (langchain_models.py lines
40-66): per-message role dispatch, defaulting every unknown (or missing) role
to `HumanMessage`; the append loop over the input list is a map. -/
def _convert_messages_to_langchain (messages : List Message) : List LCMessage :=
  messages.map (fun msg =>
    if msg.role = some "system" then LCMessage.SystemMessage msg.content
    else if msg.role = some "user" then LCMessage.HumanMessage msg.content
    else if msg.role = some "assistant" then LCMessage.AIMessage msg.content
    else LCMessage.HumanMessage msg.content)

/-- The try-block of `query_model` (langchain_models.py lines 87-101) as an
exception-transparent computation: create the model instance, convert the
messages, perform the remote call; any step may raise. -/
def query_model_body (world : World) (model_config : ModelConfig)
    (messages : List Message) (temperature : ℚ) : Except PyError Response :=
  match _get_model_instance model_config with
  | Except.error e => Except.error e
  | Except.ok model =>
    match world model (_convert_messages_to_langchain messages) temperature with
    | CallOutcome.raise e => Except.error (PyError.invokeError e)
    | CallOutcome.success content => Except.ok ⟨content, none⟩

/-- Embedding of `query_model` (langchain_models.py lines 69-107): run the body
and catch every exception, returning `None`.  The `timeout` argument is part of
the signature but is never read by the body: the source passes only the
temperature to `ainvoke`, and its docstring notes the timeout is "currently not
enforced". -/
def query_model (world : World) (model_config : ModelConfig)
    (messages : List Message) (temperature timeout : ℚ) : Option Response :=
  match query_model_body world model_config messages temperature with
  | Except.ok r => some r
  | Except.error _ => none

/-- The canonical identifier string built at langchain_models.py line 135. -/
def model_id (config : ModelConfig) : String :=
  config.provider ++ "/" ++ config.model

/-- Assignment into a Python dict modelled as an insertion-ordered association
list: overwrite in place when the key is present, append otherwise. -/
def dictInsert {α : Type} (d : List (String × α)) (k : String) (v : α) :
    List (String × α) :=
  if k ∈ d.map Prod.fst then d.map (fun p => if p.1 = k then (k, v) else p)
  else d ++ [(k, v)]

/-- Embedding of `query_models_parallel` (langchain_models.py lines 110-144):
one `query_model` call per config with the source defaults temperature 0.7 and
timeout 120, gathered in input order (`asyncio.gather` returns results in the
order of its arguments), then written into a dict keyed by `model_id`.  In the
embedding `query_model` is total, so the `isinstance(response, Exception)`
branch of the zip loop cannot fire. -/
def query_models_parallel (world : World) (model_configs : List ModelConfig)
    (messages : List Message) : List (String × Option Response) :=
  let responses := model_configs.map (fun config => query_model world config messages (7/10) 120)
  (model_configs.zip responses).foldl (fun results p => dictInsert results (model_id p.1) p.2) []

/-- Embedding of `COUNCIL_MODELS` (config.py lines 14-18). -/
def COUNCIL_MODELS : List ModelConfig :=
  [⟨"openai", "gpt-5"⟩, ⟨"google", "gemini-3-pro-preview"⟩,
   ⟨"anthropic", "claude-sonnet-4-5-20250929"⟩]

/-- Embedding of `CHAIRMAN_MODEL` (config.py line 21). -/
def CHAIRMAN_MODEL : ModelConfig := ⟨"google", "gemini-3-pro-preview"⟩

/-- A remote environment in which every call succeeds with content "ok". -/
def worldUp : World := fun _ _ _ => CallOutcome.success "ok"

/-- A remote environment in which every call raises. -/
def worldDown : World := fun _ _ _ => CallOutcome.raise "boom"

def cfgClaude : ModelConfig := ⟨"anthropic", "claude-sonnet-4-5-20250929"⟩

def cfgGpt : ModelConfig := ⟨"openai", "gpt-5"⟩

def cfgGemini : ModelConfig := ⟨"google", "gemini-3-pro-preview"⟩

def cfgSlashA : ModelConfig := ⟨"anthropic", "x/y"⟩

def cfgSlashB : ModelConfig := ⟨"anthropic/x", "y"⟩

/-- The dict entry built for one config by `query_models_parallel`. -/
def runEntry (world : World) (messages : List Message) (config : ModelConfig) :
    String × Option Response :=
  (model_id config, query_model world config messages (7/10) 120)

/-- The dict-building loop of `query_models_parallel`, generalized over the
starting dict. -/
def foldInsert {α : Type} (l : List (String × α)) (acc : List (String × α)) :
    List (String × α) :=
  l.foldl (fun d p => dictInsert d p.1 p.2) acc


/-- Reading the entry of a key from a Python dict modelled as an association
list (`none` when the key is absent). -/
def dictLookup {α : Type} : List (String × α) → String → Option α
  | [], _ => none
  | p :: t, k => if p.1 = k then some p.2 else dictLookup t k

/-- Modelled from the spec: helper for the RankingParser of §4.5, whose code
(the council module) is not under src/.  Splits a character stream into its
maximal runs of alphanumeric characters; every other character (commas, arrows,
dots, whitespace) separates tokens.  The second argument accumulates the
current run in reverse. -/
def splitTokensAux : List Char → List Char → List (List Char)
  | [], acc => if acc.isEmpty then [] else [acc.reverse]
  | c :: cs, acc =>
    if c.isAlphanum then splitTokensAux cs (c :: acc)
    else if acc.isEmpty then splitTokensAux cs []
    else acc.reverse :: splitTokensAux cs []

/-- Modelled from the spec: the RankingParser of §4.5 is code of this
repository that is not under src/ (only its callers and tests are).  Following
the spec's words: tokens matching the known label alphabet are extracted in the
order they appear (this covers the comma/arrow single-line forms and the
numbered line-per-rank form, whose digits and punctuation are not labels); the
parse succeeds only when the extracted sequence contains every label of
`valid_labels` exactly once — it never partially orders — and `ParseFailure` is
embedded as `none`. -/
def parse_ranking (raw_text : String) (valid_labels : List String) :
    Option (List String) :=
  let tokens := (splitTokensAux raw_text.toList []).map (fun cs => String.mk cs)
  let extracted := tokens.filter (fun t => valid_labels.contains t)
  if valid_labels.all (fun l => extracted.count l == 1) then some extracted else none

/-- Modelled from the spec: the AggregateRanking record of §3 - a model's
label, its arithmetic-mean rank and the number of submissions ranking it.
Python floats are embedded as rationals. -/
structure AggregateRanking where
  model : String
  average_rank : ℚ
  rankings_count : ℕ
deriving DecidableEq, Repr

/-- Modelled from the spec: the 1-indexed positions of a label across the
parsed submissions that include it (§4.6). -/
def positionsOf (label : String) (submissions : List (List String)) : List ℕ :=
  submissions.filterMap (fun sub =>
    if sub.contains label then some (sub.indexOf label + 1) else none)

/-- Modelled from the spec: the §4.6 output order - ascending average rank,
ties broken by higher rankings count, remaining ties left in original order. -/
def aggLE (a b : AggregateRanking) : Bool :=
  if a.average_rank < b.average_rank then true
  else if b.average_rank < a.average_rank then false
  else decide (b.rankings_count ≤ a.rankings_count)

/-- Insertion into a sorted list, placing the new element before the first
entry it compares no-later-than (stable for equal entries). -/
def insertSorted (le : AggregateRanking → AggregateRanking → Bool)
    (a : AggregateRanking) : List AggregateRanking → List AggregateRanking
  | [] => [a]
  | b :: t => if le a b then a :: b :: t else b :: insertSorted le a t

/-- Stable insertion sort used by the modelled aggregator. -/
def sortRankings (le : AggregateRanking → AggregateRanking → Bool) :
    List AggregateRanking → List AggregateRanking
  | [] => []
  | a :: t => insertSorted le a (sortRankings le t)

/-- Modelled from the spec: the RankAggregator of §4.6 is code of this
repository that is not under src/.  For each label that appears in at least one
parsed submission, `average_rank` is the arithmetic mean of its 1-indexed
positions across the submissions including it and `rankings_count` the number
of such submissions; the output is sorted ascending by average rank with ties
broken by higher count, stably.  Zero parsed submissions yield the empty
sequence, not an error. -/
def aggregate_rankings (labels : List String) (submissions : List (List String)) :
    List AggregateRanking :=
  let entries := labels.filterMap (fun l =>
    let positions := positionsOf l submissions
    if positions.length = 0 then none
    else some ⟨l, (positions.sum : ℚ) / (positions.length : ℚ), positions.length⟩)
  sortRankings aggLE entries

theorem dictInsert_of_not_mem {α : Type} {d : List (String × α)} {k : String} (v : α)
    (h : k ∉ d.map Prod.fst) : dictInsert d k v = d ++ [(k, v)] := by
  simp [dictInsert, h]

theorem dictLookup_eq_none_of_not_mem {α : Type} {d : List (String × α)} {k : String}
    (h : k ∉ d.map Prod.fst) : dictLookup d k = none := by
  induction d with
  | nil => rfl
  | cons p t ih =>
    rw [List.map_cons] at h
    have h1 : ¬(p.1 = k) := fun hc => h (by rw [hc]; exact List.mem_cons_self _ _)
    have h2 : k ∉ t.map Prod.fst := fun hc => h (List.mem_cons_of_mem _ hc)
    simp [dictLookup, h1, ih h2]

theorem dictLookup_append_of_none {α : Type} {d : List (String × α)} {k : String}
    (e : List (String × α)) (h : dictLookup d k = none) :
    dictLookup (d ++ e) k = dictLookup e k := by
  induction d with
  | nil => rfl
  | cons p t ih =>
    by_cases hp : p.1 = k
    · simp [dictLookup, hp] at h
    · simp only [dictLookup, hp, if_false, if_neg hp] at h ⊢
      exact ih h

theorem dictLookup_append_not_mem {α : Type} {e : List (String × α)} {k : String}
    (d : List (String × α)) (h : ∀ p ∈ e, p.1 ≠ k) :
    dictLookup (d ++ e) k = dictLookup d k := by
  induction d with
  | nil =>
    have hm : k ∉ e.map Prod.fst := by
      intro hc
      obtain ⟨p, hp, hpe⟩ := List.mem_map.1 hc
      exact h p hp hpe
    simpa [dictLookup] using dictLookup_eq_none_of_not_mem hm
  | cons p t ih =>
    by_cases hp : p.1 = k
    · simp [dictLookup, hp]
    · simp [dictLookup, hp, ih]

theorem dictLookup_map_replace_self {α : Type} (d : List (String × α)) (k : String) (v : α)
    (h : k ∈ d.map Prod.fst) :
    dictLookup (d.map (fun p => if p.1 = k then (k, v) else p)) k = some v := by
  induction d with
  | nil => simp at h
  | cons p t ih =>
    by_cases hp : p.1 = k
    · simp [dictLookup, hp]
    · have hk : k ∈ t.map Prod.fst := by
        rw [List.map_cons] at h
        exact (List.mem_cons.1 h).resolve_left (fun hc => hp hc.symm)
      simp [dictLookup, hp, ih hk]

theorem dictLookup_map_replace_ne {α : Type} (d : List (String × α)) (j k : String) (v : α)
    (hjk : j ≠ k) :
    dictLookup (d.map (fun p => if p.1 = j then (j, v) else p)) k = dictLookup d k := by
  induction d with
  | nil => rfl
  | cons p t ih =>
    by_cases hp : p.1 = j
    · simp [dictLookup, hp, hjk, ih]
    · simp [dictLookup, hp, ih]

theorem dictLookup_dictInsert_self {α : Type} (d : List (String × α)) (k : String) (v : α) :
    dictLookup (dictInsert d k v) k = some v := by
  by_cases h : k ∈ d.map Prod.fst
  · simp only [dictInsert, if_pos h]
    exact dictLookup_map_replace_self d k v h
  · rw [dictInsert_of_not_mem v h,
      dictLookup_append_of_none _ (dictLookup_eq_none_of_not_mem h)]
    simp [dictLookup]

theorem dictLookup_dictInsert_ne {α : Type} (d : List (String × α)) (j k : String) (v : α)
    (hjk : j ≠ k) : dictLookup (dictInsert d j v) k = dictLookup d k := by
  by_cases h : j ∈ d.map Prod.fst
  · simp only [dictInsert, if_pos h]
    exact dictLookup_map_replace_ne d j k v hjk
  · rw [dictInsert_of_not_mem v h, dictLookup_append_not_mem d (by simpa using hjk)]

theorem foldInsert_cons {α : Type} (p : String × α) (t : List (String × α))
    (acc : List (String × α)) :
    foldInsert (p :: t) acc = foldInsert t (dictInsert acc p.1 p.2) := rfl

theorem foldInsert_append {α : Type} (l1 l2 : List (String × α))
    (acc : List (String × α)) :
    foldInsert (l1 ++ l2) acc = foldInsert l2 (foldInsert l1 acc) := by
  simp [foldInsert, List.foldl_append]

theorem dictLookup_foldInsert_of_not_mem {α : Type} (l : List (String × α)) (k : String) :
    (∀ p ∈ l, p.1 ≠ k) → ∀ acc, dictLookup (foldInsert l acc) k = dictLookup acc k := by
  induction l with
  | nil => intro _ acc; rfl
  | cons p t ih =>
    intro h acc
    have h1 : p.1 ≠ k := h p (List.mem_cons_self p t)
    have h2 : ∀ q ∈ t, q.1 ≠ k := fun q hq => h q (List.mem_cons_of_mem p hq)
    rw [foldInsert_cons, ih h2, dictLookup_dictInsert_ne _ _ _ _ h1]

theorem query_models_parallel_eq_foldInsert (world : World)
    (model_configs : List ModelConfig) (messages : List Message) :
    query_models_parallel world model_configs messages =
      foldInsert (model_configs.map (runEntry world messages)) [] := by
  suffices h : ∀ (cfgs : List ModelConfig) (acc : List (String × Option Response)),
      (cfgs.zip (cfgs.map (fun config =>
          query_model world config messages (7/10) 120))).foldl
        (fun results p => dictInsert results (model_id p.1) p.2) acc =
      foldInsert (cfgs.map (runEntry world messages)) acc by
    exact h model_configs []
  intro cfgs
  induction cfgs with
  | nil => intro acc; rfl
  | cons c t ih =>
    intro acc
    simpa [foldInsert_cons, runEntry] using ih (dictInsert acc (model_id c)
      (query_model world c messages (7/10) 120))

theorem keys_dictInsert {α : Type} (d : List (String × α)) (k : String) (v : α) :
    (dictInsert d k v).map Prod.fst =
      if k ∈ d.map Prod.fst then d.map Prod.fst else d.map Prod.fst ++ [k] := by
  by_cases h : k ∈ d.map Prod.fst
  · rw [if_pos h]
    simp only [dictInsert, if_pos h, List.map_map]
    apply List.map_congr_left
    intro p _
    by_cases hp : p.1 = k
    · simp [Function.comp, hp]
    · simp [Function.comp, hp]
  · rw [if_neg h, dictInsert_of_not_mem v h]
    simp

theorem keys_toFinset_dictInsert {α : Type} (d : List (String × α)) (k : String) (v : α) :
    ((dictInsert d k v).map Prod.fst).toFinset = insert k (d.map Prod.fst).toFinset := by
  rw [keys_dictInsert]
  by_cases h : k ∈ d.map Prod.fst
  · rw [if_pos h, Finset.insert_eq_self.2 (List.mem_toFinset.2 h)]
  · rw [if_neg h]
    simp [List.toFinset_append, Finset.union_comm, Finset.insert_eq]

theorem keys_nodup_dictInsert {α : Type} (d : List (String × α)) (k : String) (v : α)
    (h : (d.map Prod.fst).Nodup) : ((dictInsert d k v).map Prod.fst).Nodup := by
  rw [keys_dictInsert]
  by_cases hm : k ∈ d.map Prod.fst
  · rwa [if_pos hm]
  · rw [if_neg hm]
    exact h.append (List.nodup_singleton k) (by simpa [List.disjoint_singleton] using hm)

theorem length_foldInsert {α : Type} (l : List (String × α)) :
    ∀ acc : List (String × α), (acc.map Prod.fst).Nodup →
    (foldInsert l acc).length =
      ((acc.map Prod.fst).toFinset ∪ (l.map Prod.fst).toFinset).card := by
  induction l with
  | nil =>
    intro acc h
    show acc.length = ((acc.map Prod.fst).toFinset ∪ (([] : List (String × α)).map Prod.fst).toFinset).card
    rw [List.map_nil, List.toFinset_nil, Finset.union_empty,
      List.toFinset_card_of_nodup h, List.length_map]
  | cons p t ih =>
    intro acc h
    rw [foldInsert_cons, ih _ (keys_nodup_dictInsert _ _ _ h), keys_toFinset_dictInsert]
    congr 1
    rw [List.map_cons, List.toFinset_cons, Finset.insert_union, Finset.union_insert]

theorem foldInsert_eq_append {α : Type} (l : List (String × α)) :
    ∀ acc : List (String × α), (acc.map Prod.fst ++ l.map Prod.fst).Nodup →
    foldInsert l acc = acc ++ l := by
  induction l with
  | nil => intro acc _; exact (List.append_nil acc).symm
  | cons p t ih =>
    intro acc h
    have hmem : p.1 ∉ acc.map Prod.fst := by
      rw [List.nodup_append] at h
      exact fun hc => h.2.2 hc (by simp)
    rw [foldInsert_cons, dictInsert_of_not_mem _ hmem,
      ih _ (by simpa [List.append_assoc] using h), List.append_assoc]
    rfl

theorem exists_last_occurrence (cfgs : List ModelConfig) (k : String) :
    (∃ c ∈ cfgs, model_id c = k) →
    ∃ pre c post, cfgs = pre ++ c :: post ∧ model_id c = k ∧
      ∀ c2 ∈ post, model_id c2 ≠ k := by
  induction cfgs with
  | nil => intro h; simp at h
  | cons a t ih =>
    intro h
    by_cases ht : ∃ c ∈ t, model_id c = k
    · obtain ⟨pre, c, post, e, hk, hp⟩ := ih ht
      exact ⟨a :: pre, c, post, by rw [e]; rfl, hk, hp⟩
    · have ha : model_id a = k := by
        obtain ⟨c, hc, hk⟩ := h
        rcases List.mem_cons.1 hc with rfl | hm
        · exact hk
        · exact absurd ⟨c, hm, hk⟩ ht
      exact ⟨[], a, t, rfl, ha, fun c2 h2 hk2 => ht ⟨c2, h2, hk2⟩⟩

theorem runner_lookup_last (world : World) (messages : List Message)
    (pre post : List ModelConfig) (cfg : ModelConfig)
    (hpost : ∀ c ∈ post, model_id c ≠ model_id cfg) :
    dictLookup (query_models_parallel world (pre ++ cfg :: post) messages) (model_id cfg) =
      some (query_model world cfg messages (7/10) 120) := by
  rw [query_models_parallel_eq_foldInsert, List.map_append, List.map_cons,
    foldInsert_append, foldInsert_cons]
  have hpost2 : ∀ p ∈ post.map (runEntry world messages), p.1 ≠ model_id cfg := by
    intro p hp
    obtain ⟨c, hc, rfl⟩ := List.mem_map.1 hp
    exact hpost c hc
  rw [dictLookup_foldInsert_of_not_mem _ _ hpost2]
  exact dictLookup_dictInsert_self _ _ _

theorem runner_lookup_of_injective (world : World) (model_configs : List ModelConfig)
    (messages : List Message)
    (hinj : ∀ c1 ∈ model_configs, ∀ c2 ∈ model_configs,
      model_id c1 = model_id c2 → c1 = c2)
    (cfg : ModelConfig) (hmem : cfg ∈ model_configs) :
    dictLookup (query_models_parallel world model_configs messages) (model_id cfg) =
      some (query_model world cfg messages (7/10) 120) := by
  obtain ⟨pre, c, post, e, hk, hp⟩ :=
    exists_last_occurrence model_configs (model_id cfg) ⟨cfg, hmem, rfl⟩
  have hc_mem : c ∈ model_configs := by rw [e]; simp
  have hce : c = cfg := hinj c hc_mem cfg hmem hk
  subst hce
  rw [e]
  exact runner_lookup_last world messages pre post c hp

/-- C1 counterexample: the fan-out runner keys its result dict by the
"provider/model" string, so a list that repeats an identifier yields fewer
entries than identifiers: here the result has 1 entry for 2 supplied
identifiers, refuting "its length always equals the length of the identifier
list". -/
theorem C1_counterexample :
    (query_models_parallel worldUp [cfgClaude, cfgClaude] []).length ≠
      ([cfgClaude, cfgClaude] : List ModelConfig).length := by decide

/-- C1 (amended): for every identifier list whose canonical "provider/model"
strings are pairwise distinct, `query_models_parallel` returns exactly one
entry per supplied identifier — its length equals the length of the identifier
list — and the entries preserve the caller-supplied identifier order (the
gather result is consumed in argument order, regardless of completion order);
with duplicated identifier strings, later entries overwrite earlier ones. -/
theorem C1_runner_length_and_order (world : World) (model_configs : List ModelConfig)
    (messages : List Message) (h : (model_configs.map model_id).Nodup) :
    (query_models_parallel world model_configs messages).length = model_configs.length ∧
    (query_models_parallel world model_configs messages).map Prod.fst =
      model_configs.map model_id := by
  have e : query_models_parallel world model_configs messages =
      model_configs.map (runEntry world messages) := by
    rw [query_models_parallel_eq_foldInsert]
    have h2 := foldInsert_eq_append (model_configs.map (runEntry world messages)) []
      (by simpa [List.map_map, Function.comp, runEntry] using h)
    simpa using h2
  constructor
  · rw [e, List.length_map]
  · rw [e, List.map_map]
    apply List.map_congr_left
    intro c _
    rfl

/-- C1 witness: a duplicate-free two-identifier list instantiating the amended
theorem, with its hypothesis discharged by evaluation. -/
theorem C1_witness :
    ([cfgClaude, cfgGpt].map model_id).Nodup ∧
    ((query_models_parallel worldUp [cfgClaude, cfgGpt] []).length =
        ([cfgClaude, cfgGpt] : List ModelConfig).length ∧
      (query_models_parallel worldUp [cfgClaude, cfgGpt] []).map Prod.fst =
        [cfgClaude, cfgGpt].map model_id) :=
  ⟨by decide, C1_runner_length_and_order worldUp [cfgClaude, cfgGpt] [] (by decide)⟩

/-- C2: `query_model` never raises across its boundary: whenever its try-block
raises — in particular for an unsupported provider, and for a transport error
or provider-side timeout surfacing as an `ainvoke` exception — the caller
receives the failure value `none`, never an exception up the stack. -/
theorem C2_query_model_never_raises (world : World) (model_config : ModelConfig)
    (messages : List Message) (temperature timeout : ℚ) :
    (∀ e, query_model_body world model_config messages temperature = Except.error e →
      query_model world model_config messages temperature timeout = none) ∧
    (model_config.provider ≠ "anthropic" → model_config.provider ≠ "openai" →
      query_model world model_config messages temperature timeout = none) ∧
    (∀ inst e, _get_model_instance model_config = Except.ok inst →
      world inst (_convert_messages_to_langchain messages) temperature =
        CallOutcome.raise e →
      query_model world model_config messages temperature timeout = none) := by
  refine ⟨?_, ?_, ?_⟩
  · intro e h
    simp [query_model, h]
  · intro h1 h2
    simp [query_model, query_model_body, _get_model_instance, h1, h2]
  · intro inst e h1 h2
    simp [query_model, query_model_body, h1, h2]

/-- C2 witness: an unsupported-provider call and a raising transport call, both
surfaced as `none`. -/
theorem C2_witness :
    query_model worldUp cfgGemini [] (7/10) 120 = none ∧
    query_model worldDown cfgClaude [] (7/10) 120 = none :=
  ⟨(C2_query_model_never_raises worldUp cfgGemini [] (7/10) 120).2.1
      (by decide) (by decide),
   (C2_query_model_never_raises worldDown cfgClaude [] (7/10) 120).2.2
      (ModelInstance.ChatAnthropic "claude-sonnet-4-5-20250929") "boom" rfl rfl⟩

/-- C3 counterexample: two distinct identifiers can share the canonical string,
because "/" also occurs in names: ("anthropic", "x/y") and ("anthropic/x", "y")
both map to the key "anthropic/x/y".  The first identifier's call succeeds, the
second fails, and the failing call erases the other identifier's entry — the
shared key holds `none` — so a failing call does change another identifier's
entry, refuting the claim as stated for arbitrary identifier lists. -/
theorem C3_counterexample :
    query_model worldUp cfgSlashA [] (7/10) 120 = some ⟨"ok", none⟩ ∧
    query_model worldUp cfgSlashB [] (7/10) 120 = none ∧
    cfgSlashA ≠ cfgSlashB ∧
    model_id cfgSlashA = model_id cfgSlashB ∧
    dictLookup (query_models_parallel worldUp [cfgSlashA, cfgSlashB] [])
      (model_id cfgSlashA) = some none := by
  exact ⟨rfl, rfl, by decide, rfl, by decide⟩

/-- C3 (amended): provided distinct supplied identifiers have distinct
canonical "provider/model" strings, a failing call degrades to an absent entry
(`none`) at its identifier's key without changing the entries of the other
identifiers — each still holds exactly its own call's result — and the runner
itself never fails as a whole: on an empty identifier list it returns the empty
result, not an error. -/
theorem C3_failure_isolated (world : World) (model_configs : List ModelConfig)
    (messages : List Message) (cfg : ModelConfig) (hmem : cfg ∈ model_configs)
    (hinj : ∀ c1 ∈ model_configs, ∀ c2 ∈ model_configs,
      model_id c1 = model_id c2 → c1 = c2)
    (hfail : query_model world cfg messages (7/10) 120 = none) :
    dictLookup (query_models_parallel world model_configs messages) (model_id cfg) =
      some none ∧
    (∀ c ∈ model_configs, model_id c ≠ model_id cfg →
      dictLookup (query_models_parallel world model_configs messages) (model_id c) =
        some (query_model world c messages (7/10) 120)) ∧
    query_models_parallel world [] messages = [] := by
  refine ⟨?_, ?_, rfl⟩
  · rw [runner_lookup_of_injective world model_configs messages hinj cfg hmem, hfail]
  · intro c hc _
    exact runner_lookup_of_injective world model_configs messages hinj c hc

/-- C3 witness: in a two-identifier council where the google member fails, its
entry is present and absent-valued. -/
theorem C3_witness :
    dictLookup (query_models_parallel worldUp [cfgClaude, cfgGemini] [])
      (model_id cfgGemini) = some none :=
  (C3_failure_isolated worldUp [cfgClaude, cfgGemini] [] cfgGemini (by decide)
    (by decide) (by decide)).1

/-- C4 counterexample: the timeout is not enforced.  In an environment where
the call completes, a gateway call carrying a zero timeout — which an enforced
timeout would turn into an absent result, since no remote call completes within
zero seconds — still returns the response, identical to the result under the
default 120-second timeout; the source never reads the parameter (its
docstring: "currently not enforced"). -/
theorem C4_counterexample :
    query_model worldUp cfgClaude [] (7/10) 0 = some ⟨"ok", none⟩ ∧
    query_model worldUp cfgClaude [] (7/10) 0 =
      query_model worldUp cfgClaude [] (7/10) 120 := ⟨rfl, rfl⟩

/-- C4 (amended): every gateway call carries its own timeout option in its
signature, but that timeout is not enforced: `query_model`'s result is
independent of the timeout value, so a slow call is never cut off by it; each
call still depends only on its own arguments, so it cannot cancel or delay
siblings. -/
theorem C4_timeout_not_enforced (world : World) (model_config : ModelConfig)
    (messages : List Message) (temperature t1 t2 : ℚ) :
    query_model world model_config messages temperature t1 =
      query_model world model_config messages temperature t2 := rfl

/-- C5: provider dispatch is a closed choice: any config whose provider tag is
neither "anthropic" nor "openai" is rejected by `_get_model_instance` with a
`ValueError`, and `query_model` consequently returns the failure value `none`
rather than any response. -/
theorem C5_closed_provider_dispatch (world : World) (model_config : ModelConfig)
    (messages : List Message) (temperature timeout : ℚ)
    (h1 : model_config.provider ≠ "anthropic")
    (h2 : model_config.provider ≠ "openai") :
    _get_model_instance model_config = Except.error
      (PyError.valueError ("Unsupported provider: " ++ model_config.provider)) ∧
    query_model world model_config messages temperature timeout = none := by
  constructor
  · simp [_get_model_instance, h1, h2]
  · simp [query_model, query_model_body, _get_model_instance, h1, h2]

/-- C5 witness: the google provider tag of the default chairman config is
rejected and its gateway call returns `none`. -/
theorem C5_witness :
    _get_model_instance cfgGemini = Except.error
      (PyError.valueError ("Unsupported provider: " ++ cfgGemini.provider)) ∧
    query_model worldUp cfgGemini [] (7/10) 120 = none :=
  C5_closed_provider_dispatch worldUp cfgGemini [] (7/10) 120 (by decide) (by decide)

/-- C6: under the default configuration the chairman model and the google
council member can never answer: their provider tag is "google", which
`_get_model_instance` rejects with `ValueError` (only "anthropic" and "openai"
are dispatched, the google branch being commented out), so `query_model`
returns `None` for them in every remote environment, for every message list,
temperature and timeout. -/
theorem C6_default_google_models_always_fail (world : World) (messages : List Message)
    (temperature timeout : ℚ) :
    CHAIRMAN_MODEL = cfgGemini ∧
    cfgGemini ∈ COUNCIL_MODELS ∧
    cfgGemini.provider = "google" ∧
    _get_model_instance cfgGemini =
      Except.error (PyError.valueError "Unsupported provider: google") ∧
    query_model world CHAIRMAN_MODEL messages temperature timeout = none ∧
    query_model world cfgGemini messages temperature timeout = none :=
  ⟨rfl, by decide, rfl, rfl, rfl, rfl⟩

/-- C9: `query_models_parallel` keys its result by the canonical
"provider/model" string: the number of entries equals the number of distinct
such strings among the configs, and the entry at a key holds the response of
the last config bearing that key — a later config's response overwrites an
earlier one's entry. -/
theorem C9_result_keyed_by_model_id (world : World) (model_configs : List ModelConfig)
    (messages : List Message) :
    (query_models_parallel world model_configs messages).length =
      (model_configs.map model_id).toFinset.card ∧
    ∀ pre cfg post, model_configs = pre ++ cfg :: post →
      (∀ c ∈ post, model_id c ≠ model_id cfg) →
      dictLookup (query_models_parallel world model_configs messages) (model_id cfg) =
        some (query_model world cfg messages (7/10) 120) := by
  constructor
  · rw [query_models_parallel_eq_foldInsert, length_foldInsert _ [] (by simp)]
    have hc : Prod.fst ∘ runEntry world messages = model_id := rfl
    simp [List.map_map, hc]
  · intro pre cfg post e hp
    rw [e]
    exact runner_lookup_last world messages pre post cfg hp

/-- C9 witness: a duplicated config: the single entry holds the last config's
response. -/
theorem C9_witness :
    dictLookup (query_models_parallel worldUp [cfgClaude, cfgClaude] [])
      (model_id cfgClaude) =
      some (query_model worldUp cfgClaude [] (7/10) 120) :=
  (C9_result_keyed_by_model_id worldUp [cfgClaude, cfgClaude] []).2
    [cfgClaude] cfgClaude [] rfl (by simp)

/-- C10: `_convert_messages_to_langchain` is total and length-preserving, and
maps each message by role: "system" to SystemMessage, "user" to HumanMessage,
"assistant" to AIMessage, and every other (or missing) role silently to
HumanMessage, never rejecting it. -/
theorem C10_convert_messages_total (messages : List Message) :
    (_convert_messages_to_langchain messages).length = messages.length ∧
    ∀ (i : ℕ) (msg : Message), messages[i]? = some msg →
      (_convert_messages_to_langchain messages)[i]? = some
        (if msg.role = some "system" then LCMessage.SystemMessage msg.content
         else if msg.role = some "user" then LCMessage.HumanMessage msg.content
         else if msg.role = some "assistant" then LCMessage.AIMessage msg.content
         else LCMessage.HumanMessage msg.content) := by
  refine ⟨by simp [_convert_messages_to_langchain], ?_⟩
  intro i msg h
  simp [_convert_messages_to_langchain, List.getElem?_map, h]

/-- C10 witness: an unknown role "tool" is silently converted to a
HumanMessage, at its original position. -/
theorem C10_witness :
    (_convert_messages_to_langchain
        [⟨some "system", some "s"⟩, ⟨some "tool", some "use"⟩])[1]? =
      some (LCMessage.HumanMessage (some "use")) := by
  simpa using (C10_convert_messages_total
    [⟨some "system", some "s"⟩, ⟨some "tool", some "use"⟩]).2 1
    ⟨some "tool", some "use"⟩ rfl

theorem mem_insertSorted (le : AggregateRanking → AggregateRanking → Bool)
    (a x : AggregateRanking) (ll : List AggregateRanking) :
    x ∈ insertSorted le a ll ↔ x = a ∨ x ∈ ll := by
  induction ll with
  | nil => simp [insertSorted]
  | cons b t ih =>
    cases hle : le a b <;> simp [insertSorted, hle, List.mem_cons, ih] <;> tauto

theorem mem_sortRankings (le : AggregateRanking → AggregateRanking → Bool)
    (x : AggregateRanking) (ll : List AggregateRanking) :
    x ∈ sortRankings le ll ↔ x ∈ ll := by
  induction ll with
  | nil => simp [sortRankings]
  | cons a t ih => simp [sortRankings, mem_insertSorted, ih, List.mem_cons]

/-- C7: the modelled ranking parser, whenever it succeeds, returns an ordering
containing every label of `valid_labels` exactly once and no foreign token —
never a partial ordering — and on the spec's round-trip examples the
comma-separated form and the numbered line-per-rank form both parse to
[B, A, C], while "B, A" fails with `ParseFailure` because C is missing. -/
theorem C7_parse_ranking_total_orders (raw : String) (valid : List String)
    (ord : List String) (h : parse_ranking raw valid = some ord) :
    ((∀ l ∈ valid, ord.count l = 1) ∧ ∀ t ∈ ord, t ∈ valid) ∧
    parse_ranking "B, A, C" ["A", "B", "C"] = some ["B", "A", "C"] ∧
    parse_ranking "1. B\n2. A\n3. C" ["A", "B", "C"] = some ["B", "A", "C"] ∧
    parse_ranking "B, A" ["A", "B", "C"] = none := by
  refine ⟨?_, by decide, by decide, by decide⟩
  simp only [parse_ranking] at h
  split at h
  case isTrue hcond =>
    injection h with h2
    subst h2
    constructor
    · intro l hl
      simpa using List.all_eq_true.1 hcond l hl
    · intro t ht
      have hm := List.mem_filter.1 ht
      simpa using hm.2
  case isFalse hcond => cases h

/-- C7 witness: the comma-form example instantiates the theorem; its parsed
ordering contains label B exactly once. -/
theorem C7_witness :
    parse_ranking "B, A" ["A", "B", "C"] = none ∧
    (["B", "A", "C"] : List String).count "B" = 1 :=
  ⟨(C7_parse_ranking_total_orders "B, A, C" ["A", "B", "C"] ["B", "A", "C"]
      (by decide)).2.2.2,
   (C7_parse_ranking_total_orders "B, A, C" ["A", "B", "C"] ["B", "A", "C"]
      (by decide)).1.1 "B" (by decide)⟩

/-- C8: the modelled aggregator gives every label that appears in at least one
parsed submission an entry whose average_rank is the arithmetic mean of its
1-indexed positions across the submissions including it, and whose
rankings_count is the number of such submissions.  On the spec's example
submissions over the labels A, B, C the averages are A = 2, B = 4/3 and
C = 8/3 (the spec's two-decimal renderings 2.0, 1.33 and 2.67), each from 3
submissions, output in the order [B, A, C]; and zero parsed submissions yield
the empty sequence, not an error. -/
theorem C8_aggregate_rankings_means (labels : List String)
    (subs : List (List String)) (l : String) (hl : l ∈ labels)
    (hpos : positionsOf l subs ≠ []) :
    (∃ r, r ∈ aggregate_rankings labels subs ∧ r.model = l ∧
      r.average_rank =
        ((positionsOf l subs).sum : ℚ) / ((positionsOf l subs).length : ℚ) ∧
      r.rankings_count = (positionsOf l subs).length) ∧
    (aggregate_rankings ["A", "B", "C"]
        [["B", "A", "C"], ["A", "B", "C"], ["B", "C", "A"]] =
      [⟨"B", 4/3, 3⟩, ⟨"A", 2, 3⟩, ⟨"C", 8/3, 3⟩]) ∧
    aggregate_rankings labels [] = [] := by
  refine ⟨?_, ?_, ?_⟩
  · have hne : ¬((positionsOf l subs).length = 0) :=
      fun hc => hpos (List.length_eq_zero.1 hc)
    refine ⟨⟨l, ((positionsOf l subs).sum : ℚ) / ((positionsOf l subs).length : ℚ),
      (positionsOf l subs).length⟩, ?_, rfl, rfl, rfl⟩
    have hmem : (⟨l, ((positionsOf l subs).sum : ℚ) / ((positionsOf l subs).length : ℚ),
        (positionsOf l subs).length⟩ : AggregateRanking) ∈ labels.filterMap (fun l2 =>
          let positions := positionsOf l2 subs
          if positions.length = 0 then none
          else some ⟨l2, (positions.sum : ℚ) / (positions.length : ℚ), positions.length⟩) := by
      apply List.mem_filterMap.2
      exact ⟨l, hl, by simp [hne]⟩
    simpa [aggregate_rankings, mem_sortRankings] using hmem
  · have hA : positionsOf "A" [["B", "A", "C"], ["A", "B", "C"], ["B", "C", "A"]] =
        [2, 1, 3] := by decide
    have hB : positionsOf "B" [["B", "A", "C"], ["A", "B", "C"], ["B", "C", "A"]] =
        [1, 2, 1] := by decide
    have hC : positionsOf "C" [["B", "A", "C"], ["A", "B", "C"], ["B", "C", "A"]] =
        [3, 3, 2] := by decide
    simp only [aggregate_rankings, List.filterMap_cons, List.filterMap_nil, hA, hB, hC]
    norm_num [sortRankings, insertSorted, aggLE]
  · have h0 : labels.filterMap (fun l2 =>
        let positions := positionsOf l2 ([] : List (List String))
        if positions.length = 0 then none
        else some (⟨l2, (positions.sum : ℚ) / (positions.length : ℚ),
          positions.length⟩ : AggregateRanking)) = [] :=
      List.filterMap_eq_nil_iff.2 (fun a _ => rfl)
    simpa [aggregate_rankings] using congrArg (sortRankings aggLE) h0

/-- C8 witness: the theorem instantiated on the spec's example — the concrete
aggregate table and the zero-submission case. -/
theorem C8_witness :
    aggregate_rankings ["A", "B", "C"] [] = [] ∧
    aggregate_rankings ["A", "B", "C"]
        [["B", "A", "C"], ["A", "B", "C"], ["B", "C", "A"]] =
      [⟨"B", 4/3, 3⟩, ⟨"A", 2, 3⟩, ⟨"C", 8/3, 3⟩] :=
  ⟨(C8_aggregate_rankings_means ["A", "B", "C"]
      [["B", "A", "C"], ["A", "B", "C"], ["B", "C", "A"]] "A"
      (by decide) (by decide)).2.2,
   (C8_aggregate_rankings_means ["A", "B", "C"]
      [["B", "A", "C"], ["A", "B", "C"], ["B", "C", "A"]] "A"
      (by decide) (by decide)).2.1⟩
